import Mathlib

/-!
Verification of the AI-news collector backend.

The development shallowly embeds the two modules the claims are about:

* `backend/db.py` — an SQLite-backed article store. The `articles` table has a
  `UNIQUE` constraint on `link`; rows are modelled as `Article` records and the
  store as the list of rows in insertion order. `INSERT OR IGNORE` is modelled
  as an append guarded by an existence check, which is exactly the observable
  semantics of the SQL statement under the uniqueness constraint.
  `created_at` is an ISO-8601 text timestamp assigned at insert time and
  compared lexicographically by `ORDER BY created_at DESC`; since ISO-8601
  strings of a fixed precision compare lexicographically exactly as their
  times, creation timestamps are modelled as natural numbers.

* `backend/collector.py` — feed parsing (`_text`, the per-item normalisation
  loop of `_parse_feed`, `_build_summary_text`) and the ingestion loop
  `process_feed`. XML elements are modelled by their observable content: an
  optional element with optional text. Python truthiness on `str` /
  `Optional[str]` (`x or y`, `if x:`) is modelled by `pyOrOpt` / `pyOrD` /
  explicit emptiness tests. The LLM client is modelled as an optional pure
  function, matching its use as an opaque `translate_and_summarise` call.
  `process_feed` returns, besides the processed count and the resulting store,
  instrumentation counters for the number of existence checks and LLM calls
  performed, so that claims about side effects are statable.
-/

/-- One row of the `articles` table (`backend/db.py`, `Article`). -/
structure Article where
  title : String
  link : String
  published_at : Option String
  source : Option String
  original_summary : Option String
  translated_summary : Option String
  created_at : Nat
deriving DecidableEq

/-- The article store: the rows of the `articles` table in insertion order. -/
abbrev Store := List Article

/-- `init_db`: `CREATE TABLE IF NOT EXISTS` — creates the schema, touches no
rows, idempotent. On the logical store state it is the identity. -/
def init_db (s : Store) : Store := s

/-- `article_exists`: `SELECT 1 FROM articles WHERE link = ? LIMIT 1`. -/
def article_exists (s : Store) (link : String) : Bool :=
  s.any (fun a => a.link == link)

/-- `insert_article`: `INSERT OR IGNORE INTO articles (...)`. Under the
`UNIQUE` constraint on `link` this appends a fresh row when no row with the
link exists and is a silent no-op otherwise. `created_at` is the timestamp
taken at insert time. -/
def insert_article (s : Store) (title link : String)
    (published_at source original_summary translated_summary : Option String)
    (created_at : Nat) : Store :=
  if article_exists s link then s
  else s ++ [⟨title, link, published_at, source, original_summary, translated_summary, created_at⟩]

/-- `iter_recent_articles`: `SELECT * FROM articles ORDER BY created_at DESC`
with an optional `LIMIT`. -/
def iter_recent_articles (s : Store) (limit : Option Nat) : List Article :=
  let sorted := s.mergeSort (fun a b => b.created_at ≤ a.created_at)
  match limit with
  | none => sorted
  | some n => sorted.take n

/-- An XML element as observed by the collector: its text content, which
`xml.etree` reports as `None` for an element with no text. -/
structure RawElem where
  text : Option String
deriving DecidableEq

/-- One `<item>` node of the feed, restricted to the children the normaliser
looks up (`item.find` / `item.findall` in `_parse_feed`). A `none` field means
the child element is absent. -/
structure RawItem where
  title : Option RawElem
  link : Option RawElem
  pubDate : Option RawElem
  updated : Option RawElem
  atomUpdated : Option RawElem
  description : Option RawElem
  contentEncoded : List RawElem
  source : Option RawElem
  atomSourceTitle : Option RawElem
deriving DecidableEq

/-- `_text` (`collector.py`): `None` for a missing element or an element whose
text is `None`, otherwise the text stripped of surrounding whitespace. -/
def _text (e : Option RawElem) : Option String :=
  match e with
  | none => none
  | some el =>
    match el.text with
    | none => none
    | some t => some t.trim

/-- Python `a or b` on `Optional[str]`: `a` unless it is `None` or empty. -/
def pyOrOpt (a b : Option String) : Option String :=
  match a with
  | some s => if s = "" then b else some s
  | none => b

/-- Python `a or d` with a `str` default: `d` when `a` is `None` or empty. -/
def pyOrD (a : Option String) (d : String) : String :=
  match a with
  | some s => if s = "" then d else s
  | none => d

/-- A normalised feed entry (`collector.py`, `FeedEntry`). -/
structure FeedEntry where
  title : String
  link : String
  published : Option String
  updated : Option String
  summary : Option String
  contents : List String
  source_title : Option String
deriving DecidableEq

/-- The per-item body of `_parse_feed`: field extraction with the fallback
rules of `collector.py` lines 48–62. -/
def parseItem (it : RawItem) : FeedEntry where
  title := pyOrD (_text it.title) "Untitled"
  link := pyOrD (_text it.link) ""
  published := _text it.pubDate
  updated := pyOrOpt (_text it.updated) (_text it.atomUpdated)
  summary := _text it.description
  contents := it.contentEncoded.filterMap (fun n =>
    match _text (some n) with
    | some s => if s = "" then none else some s
    | none => none)
  source_title := pyOrOpt (_text it.source) (_text it.atomSourceTitle)

/-- `_parse_feed` applied to the item list of an already-fetched feed. -/
def _parse_feed (items : List RawItem) : List FeedEntry := items.map parseItem

/-- `_build_summary_text`: the short summary (when truthy) followed by the
content blocks, joined by blank lines. -/
def _build_summary_text (e : FeedEntry) : String :=
  let parts := (match e.summary with
    | some s => if s = "" then [] else [s]
    | none => []) ++ e.contents
  String.intercalate ("\n\n") parts

/-- The LLM client, reduced to its one observable operation
`translate_and_summarise(title, summary, link)`. -/
abbrev LLMFn := String → String → String → String

/-- The state of one `process_feed` run: the processed count, the store, the
clock supplying insert timestamps, and instrumentation counters for the
number of `article_exists` checks and LLM calls performed. -/
structure RunResult where
  count : Nat
  store : Store
  clock : Nat
  existsChecks : Nat
  llmCalls : Nat
deriving DecidableEq

/-- The loop guard `limit is not None and count >= limit`. The CLI parses
`--limit` as a Python `int`, so the bound is an integer. -/
def limitReached (limit : Option Int) (count : Nat) : Bool :=
  match limit with
  | some l => (count : Int) ≥ l
  | none => false

/-- The per-entry loop of `process_feed` (`collector.py` lines 99–143). -/
def processLoop (llm : Option LLMFn) (limit : Option Int) (dry_run : Bool) :
    List FeedEntry → RunResult → RunResult
  | [], r => r
  | e :: rest, r =>
    if limitReached limit r.count then r
    else if e.link = "" then processLoop llm limit dry_run rest r
    else
      let r1 : RunResult := { r with existsChecks := r.existsChecks + 1 }
      if article_exists r1.store e.link then processLoop llm limit dry_run rest r1
      else
        let published := pyOrOpt e.published e.updated
        let translated : Option String :=
          llm.map (fun f =>
            let summary_text := _build_summary_text e
            f e.title (if summary_text = "" then (match e.summary with
              | some s => s
              | none => "") else summary_text) e.link)
        let r2 : RunResult :=
          match llm with
          | some _ => { r1 with llmCalls := r1.llmCalls + 1 }
          | none => r1
        if dry_run then
          processLoop llm limit dry_run rest { r2 with count := r2.count + 1 }
        else
          processLoop llm limit dry_run rest
            { r2 with
              store := insert_article r2.store e.title e.link published e.source_title
                e.summary translated r2.clock
              clock := r2.clock + 1
              count := r2.count + 1 }

/-- `process_feed` on an already-fetched feed snapshot `entries`, initial
store `s` and clock `clock`. -/
def process_feed (llm : Option LLMFn) (limit : Option Int) (dry_run : Bool)
    (entries : List FeedEntry) (s : Store) (clock : Nat) : RunResult :=
  processLoop llm limit dry_run entries ⟨0, s, clock, 0, 0⟩

/-- Number of stored rows whose `link` equals `l`. -/
def linkCount (s : Store) (l : String) : Nat :=
  s.countP (fun a => a.link == l)

/-- One call against the store module: the schema bootstrap, the two writes
and reads of `backend/db.py`. Reads (`article_exists`,
`iter_recent_articles`) do not change the table. -/
inductive StoreOp where
  | initDb : StoreOp
  | insertArticle (title link : String)
      (published_at source original_summary translated_summary : Option String)
      (created_at : Nat) : StoreOp
  | articleExists (link : String) : StoreOp
  | iterRecentArticles (limit : Option Nat) : StoreOp

/-- Effect of one store call on the table state. -/
def applyOp (s : Store) : StoreOp → Store
  | .initDb => init_db s
  | .insertArticle t l p src os ts c => insert_article s t l p src os ts c
  | .articleExists _ => s
  | .iterRecentArticles _ => s

/-- The store state after a sequence of store calls starting from the empty
store created by the first `init_db`. -/
def runOps (ops : List StoreOp) : Store := ops.foldl applyOp []

/-! ### Helper lemmas about the store primitives -/

lemma article_exists_append (s t : Store) (l : String) :
    article_exists (s ++ t) l = (article_exists s l || article_exists t l) := by
  simp [article_exists]

lemma article_exists_iff (s : Store) (l : String) :
    article_exists s l = true ↔ ∃ a ∈ s, a.link = l := by
  simp [article_exists]

lemma article_exists_false_iff (s : Store) (l : String) :
    article_exists s l = false ↔ ∀ a ∈ s, a.link ≠ l := by
  simp [article_exists]

lemma linkCount_append (s t : Store) (l : String) :
    linkCount (s ++ t) l = linkCount s l + linkCount t l := by
  simp [linkCount]

lemma linkCount_pos_iff (s : Store) (l : String) :
    0 < linkCount s l ↔ article_exists s l = true := by
  simp [linkCount, article_exists, List.countP_pos_iff, List.any_eq_true]

lemma linkCount_eq_zero_iff (s : Store) (l : String) :
    linkCount s l = 0 ↔ article_exists s l = false := by
  simp [linkCount, article_exists, List.countP_eq_zero]

lemma insert_article_of_exists (s : Store) (t l : String)
    (p src os ts : Option String) (c : Nat) (h : article_exists s l = true) :
    insert_article s t l p src os ts c = s := by
  simp [insert_article, h]

lemma insert_article_of_not_exists (s : Store) (t l : String)
    (p src os ts : Option String) (c : Nat) (h : article_exists s l = false) :
    insert_article s t l p src os ts c = s ++ [⟨t, l, p, src, os, ts, c⟩] := by
  simp [insert_article, h]

lemma links_nodup_applyOp (s : Store) (op : StoreOp)
    (h : (s.map (fun a => a.link)).Nodup) :
    ((applyOp s op).map (fun a => a.link)).Nodup := by
  cases op with
  | initDb => simpa [applyOp, init_db] using h
  | articleExists _ => simpa [applyOp] using h
  | iterRecentArticles _ => simpa [applyOp] using h
  | insertArticle t l p src os ts c =>
    by_cases hex : article_exists s l = true
    · simpa [applyOp, insert_article, hex] using h
    · have hex' : article_exists s l = false := by simpa using hex
      have hall := (article_exists_false_iff s l).mp hex'
      simp only [applyOp, insert_article, hex', Bool.false_eq_true, if_false]
      rw [List.map_append, List.nodup_append]
      refine ⟨h, List.nodup_singleton _, ?_⟩
      intro x hx hx'
      simp only [List.map_cons, List.map_nil, List.mem_singleton] at hx'
      rcases List.mem_map.mp hx with ⟨a, ha, rfl⟩
      exact hall a ha (by simpa using hx')

lemma links_nodup_foldl (ops : List StoreOp) :
    ∀ s : Store, (s.map (fun a => a.link)).Nodup →
      ((ops.foldl applyOp s).map (fun a => a.link)).Nodup := by
  induction ops with
  | nil => intro s h; simpa using h
  | cons op rest ih =>
    intro s h
    exact ih (applyOp s op) (links_nodup_applyOp s op h)

lemma linkCount_le_one_of_nodup (s : Store) (l : String)
    (h : (s.map (fun a => a.link)).Nodup) : linkCount s l ≤ 1 := by
  induction s with
  | nil => simp [linkCount]
  | cons a rest ih =>
    rw [List.map_cons, List.nodup_cons] at h
    have hrest := ih h.2
    by_cases hl : a.link = l
    · have hzero : linkCount rest l = 0 := by
        rw [linkCount, List.countP_eq_zero]
        intro b hb
        simp only [beq_iff_eq]
        intro hbl
        exact h.1 (List.mem_map.mpr ⟨b, hb, by rw [hbl, hl]⟩)
      simp only [linkCount] at hzero
      simp only [linkCount, List.countP_cons]
      simp [hl, hzero]
    · simp only [linkCount] at hrest
      simp only [linkCount, List.countP_cons]
      simp only [beq_iff_eq, hl, if_false]
      omega

/-! ### Claims about the store -/

/-- C2: for every link value, at most one Article row with that link exists in
the store, and this invariant is preserved by every store operation
(`init_db`, `article_exists`, `insert_article`, `iter_recent_articles`) from
the empty store onward. -/
theorem C2_link_unique_invariant (ops : List StoreOp) (l : String) :
    linkCount (runOps ops) l ≤ 1 ∧ ((runOps ops).map (fun a => a.link)).Nodup := by
  have h : ((runOps ops).map (fun a => a.link)).Nodup :=
    links_nodup_foldl ops [] (by simp)
  exact ⟨linkCount_le_one_of_nodup _ l h, h⟩

/-- C3: a second `insert_article` with an already-stored link raises no error
(it is a total no-op), adds no row and changes no field: after the two calls
the store holds exactly one row with that link, whose fields all come from the
first insert. -/
theorem C3_insert_duplicate_ignored (s : Store) (t₁ t₂ l : String)
    (p₁ p₂ src₁ src₂ os₁ os₂ tr₁ tr₂ : Option String) (c₁ c₂ : Nat)
    (h : article_exists s l = false) :
    insert_article (insert_article s t₁ l p₁ src₁ os₁ tr₁ c₁) t₂ l p₂ src₂ os₂ tr₂ c₂
        = insert_article s t₁ l p₁ src₁ os₁ tr₁ c₁
    ∧ insert_article s t₁ l p₁ src₁ os₁ tr₁ c₁ = s ++ [⟨t₁, l, p₁, src₁, os₁, tr₁, c₁⟩]
    ∧ linkCount (insert_article (insert_article s t₁ l p₁ src₁ os₁ tr₁ c₁)
        t₂ l p₂ src₂ os₂ tr₂ c₂) l = 1 := by
  have h1 : insert_article s t₁ l p₁ src₁ os₁ tr₁ c₁ = s ++ [⟨t₁, l, p₁, src₁, os₁, tr₁, c₁⟩] :=
    insert_article_of_not_exists s t₁ l p₁ src₁ os₁ tr₁ c₁ h
  have hex2 : article_exists (s ++ [⟨t₁, l, p₁, src₁, os₁, tr₁, c₁⟩]) l = true := by
    rw [article_exists_append]
    simp [article_exists]
  have h2 : insert_article (insert_article s t₁ l p₁ src₁ os₁ tr₁ c₁) t₂ l p₂ src₂ os₂ tr₂ c₂
      = insert_article s t₁ l p₁ src₁ os₁ tr₁ c₁ := by
    rw [h1]
    exact insert_article_of_exists _ t₂ l p₂ src₂ os₂ tr₂ c₂ hex2
  refine ⟨h2, h1, ?_⟩
  rw [h2, h1, linkCount_append]
  have h0 : linkCount s l = 0 := (linkCount_eq_zero_iff s l).mpr h
  rw [h0]
  simp [linkCount]

/-- Witness for C3 at a concrete store and concrete field values. -/
theorem C3_insert_duplicate_ignored_witness :
    insert_article (insert_article [] ("A") ("L") none none none none 0) ("B") ("L")
        (some ("p")) none none none 5
      = insert_article [] ("A") ("L") none none none none 0
    ∧ insert_article [] ("A") ("L") none none none none 0
      = [] ++ [⟨("A"), ("L"), none, none, none, none, 0⟩]
    ∧ linkCount (insert_article (insert_article [] ("A") ("L") none none none none 0) ("B") ("L")
        (some ("p")) none none none 5) ("L") = 1 :=
  C3_insert_duplicate_ignored [] ("A") ("B") ("L") none none none none none none none none 0 5 rfl

/-- C6: `iter_recent_articles` with `limit = N` returns at most `N` rows,
ordered by creation time descending; with no limit it returns all stored rows
in that same order (the limited result is a prefix of the unlimited one). -/
theorem C6_list_recent_order (s : Store) (N : Nat) :
    (iter_recent_articles s (some N)).length ≤ N
    ∧ (iter_recent_articles s (some N)).Pairwise (fun a b => b.created_at ≤ a.created_at)
    ∧ (iter_recent_articles s none).Pairwise (fun a b => b.created_at ≤ a.created_at)
    ∧ (iter_recent_articles s none).Perm s
    ∧ iter_recent_articles s (some N) = (iter_recent_articles s none).take N := by
  have hsorted : (s.mergeSort (fun a b => decide (b.created_at ≤ a.created_at))).Pairwise
      (fun a b => decide (b.created_at ≤ a.created_at) = true) :=
    List.sorted_mergeSort (fun a b c h1 h2 => by simp at *; omega)
      (fun a b => by simp; omega) s
  have hfull : (iter_recent_articles s none).Pairwise
      (fun a b => b.created_at ≤ a.created_at) := by
    simpa [iter_recent_articles] using hsorted
  refine ⟨?_, ?_, hfull, ?_, ?_⟩
  · simp [iter_recent_articles]
  · have htake : iter_recent_articles s (some N) = (iter_recent_articles s none).take N := rfl
    rw [htake]
    exact hfull.sublist (List.take_sublist N _)
  · simpa [iter_recent_articles] using List.mergeSort_perm s
      (fun a b => decide (b.created_at ≤ a.created_at))
  · rfl

/-! ### Claims about the normaliser and helpers -/

/-- C8: for every FeedEntry, the combined-summary helper returns the short
summary (when present, i.e. truthy in the source) followed by each content
block in order, with the parts separated by a blank line; when the summary is
absent (or empty, which Python truthiness treats as absent) it returns the
content blocks alone, joined by blank lines. -/
theorem C8_build_summary (e : FeedEntry) :
    (∀ s : String, e.summary = some s → s ≠ "" →
      _build_summary_text e = String.intercalate ("\n\n") (s :: e.contents))
    ∧ ((e.summary = none ∨ e.summary = some "") →
      _build_summary_text e = String.intercalate ("\n\n") e.contents) := by
  constructor
  · intro s h1 h2
    simp [_build_summary_text, h1, h2]
  · rintro (h | h)
    · simp [_build_summary_text, h]
    · simp [_build_summary_text, h]

/-- Witness for C8, both branches: summary `"Short"` with one content block
`"Long form content"` yields both substrings with the summary first, and an
absent summary with blocks `"A"`, `"B"` yields the blocks joined by a blank
line. -/
theorem C8_build_summary_witness :
    _build_summary_text ⟨("Title"), ("https://example.com"), none, none, some ("Short"),
        [("Long form content")], none⟩
      = ("Short") ++ ("\n\n") ++ ("Long form content")
    ∧ _build_summary_text ⟨("Title"), ("https://example.com"), none, none, none,
        [("A"), ("B")], none⟩
      = ("A") ++ ("\n\n") ++ ("B") := by
  constructor
  · have h := (C8_build_summary
      ⟨("Title"), ("https://example.com"), none, none, some ("Short"),
        [("Long form content")], none⟩).1 ("Short") rfl (by decide)
    rw [h]
    rfl
  · have h := (C8_build_summary
      ⟨("Title"), ("https://example.com"), none, none, none,
        [("A"), ("B")], none⟩).2 (Or.inl rfl)
    rw [h]
    rfl

/-- C9: with a non-positive `--limit`, `process_feed` returns a count of 0 and
a result state with the store unchanged, zero existence checks and zero LLM
calls: the loop breaks before processing any entry. -/
theorem C9_nonpositive_limit (llm : Option LLMFn) (dry_run : Bool)
    (entries : List FeedEntry) (s : Store) (clock : Nat) (l : Int) (h : l ≤ 0) :
    process_feed llm (some l) dry_run entries s clock = ⟨0, s, clock, 0, 0⟩ := by
  cases entries with
  | nil => rfl
  | cons e rest =>
    have hl : limitReached (some l) 0 = true := by
      simp [limitReached]
      omega
    simp [process_feed, processLoop, hl]

/-- Witness for C9 at a concrete non-positive limit and non-empty feed. -/
theorem C9_nonpositive_limit_witness :
    process_feed none (some (-1)) false [⟨("T"), ("L"), none, none, none, [], none⟩] [] 3
      = ⟨0, [], 3, 0, 0⟩ :=
  C9_nonpositive_limit none false [⟨("T"), ("L"), none, none, none, [], none⟩] [] 3 (-1)
    (by decide)

/-- C10: every parsed entry has a non-empty title; a missing title element, a
title with no text, or an empty or whitespace-only title text yields the
literal title "Untitled". -/
theorem C10_title_untitled (it : RawItem) :
    (parseItem it).title ≠ ""
    ∧ ((it.title = none ∨ ∃ el, it.title = some el ∧
          (el.text = none ∨ ∃ t, el.text = some t ∧ t.trim = ""))
        → (parseItem it).title = ("Untitled")) := by
  constructor
  · simp only [parseItem]
    rcases h : _text it.title with _ | s
    · simp [pyOrD]
    · simp only [pyOrD]
      split
      · decide
      · assumption
  · rintro (hnone | ⟨el, hel, htn | ⟨t, ht, htrim⟩⟩)
    · simp [parseItem, _text, hnone, pyOrD]
    · simp [parseItem, _text, hel, htn, pyOrD]
    · simp [parseItem, _text, hel, ht, pyOrD, htrim]

/-- Witness for C10: an item with no title element parses to "Untitled". -/
theorem C10_title_untitled_witness :
    (parseItem ⟨none, none, none, none, none, none, [], none, none⟩).title = ("Untitled") :=
  (C10_title_untitled ⟨none, none, none, none, none, none, [], none, none⟩).2 (Or.inl rfl)

/-- C5: every text field the normaliser extracts goes through `_text`: a
missing element, or an element with no text content, yields `none` (never the
empty string), and any extracted value is the trim of the element's raw text.
The item-level fields reduce to `_text` of the corresponding child, the
content blocks are the trims of non-blank `content:encoded` texts, and a
non-empty title or link text is carried over verbatim (post-trim). -/
theorem C5_normalizer_trim (it : RawItem) :
    (parseItem it).published = _text it.pubDate
    ∧ (parseItem it).summary = _text it.description
    ∧ (parseItem it).updated = pyOrOpt (_text it.updated) (_text it.atomUpdated)
    ∧ (parseItem it).source_title = pyOrOpt (_text it.source) (_text it.atomSourceTitle)
    ∧ _text none = none
    ∧ (∀ el : RawElem, el.text = none → _text (some el) = none)
    ∧ (∀ (o : Option RawElem) (s : String), _text o = some s →
        ∃ el t, o = some el ∧ el.text = some t ∧ s = t.trim)
    ∧ (∀ s ∈ (parseItem it).contents, s ≠ "" ∧
        ∃ el ∈ it.contentEncoded, ∃ t, el.text = some t ∧ s = t.trim)
    ∧ (∀ t, _text it.title = some t → t ≠ "" → (parseItem it).title = t)
    ∧ (∀ t, _text it.link = some t → t ≠ "" → (parseItem it).link = t) := by
  refine ⟨rfl, rfl, rfl, rfl, rfl, ?_, ?_, ?_, ?_, ?_⟩
  · intro el h
    simp [_text, h]
  · intro o s h
    rcases o with _ | el
    · simp [_text] at h
    · rcases ht : el.text with _ | t
      · simp [_text, ht] at h
      · have hx : _text (some el) = some t.trim := by simp [_text, ht]
        rw [hx] at h
        injection h with h'
        exact ⟨el, t, rfl, ht, h'.symm⟩
  · intro s hs
    simp only [parseItem, List.mem_filterMap] at hs
    rcases hs with ⟨n, hn, hf⟩
    rcases ht : n.text with _ | t
    · simp [_text, ht] at hf
    · have hx : _text (some n) = some t.trim := by simp [_text, ht]
      rw [hx] at hf
      by_cases hz : t.trim = ""
      · simp [hz] at hf
      · simp only [hz, if_false, Option.some.injEq] at hf
        refine ⟨?_, n, hn, t, ht, hf.symm⟩
        rw [← hf]
        exact hz
  · intro t h ht
    simp [parseItem, h, pyOrD, ht]
  · intro t h ht
    simp [parseItem, h, pyOrD, ht]

/-- Witness for C5: a description element with no text parses to an absent
summary, not an empty string. -/
theorem C5_normalizer_trim_witness :
    (parseItem ⟨none, none, none, none, none, some ⟨none⟩, [], none, none⟩).summary = none := by
  have h := C5_normalizer_trim ⟨none, none, none, none, none, some ⟨none⟩, [], none, none⟩
  rw [h.2.1]
  exact h.2.2.2.2.2.1 ⟨none⟩ rfl

/-! ### Helper lemmas about the ingestion loop -/

lemma processLoop_of_limitReached (llm : Option LLMFn) (limit : Option Int) (d : Bool)
    (entries : List FeedEntry) (r : RunResult) (h : limitReached limit r.count = true) :
    processLoop llm limit d entries r = r := by
  cases entries with
  | nil => rfl
  | cons e rest =>
    rw [processLoop]
    simp [h]

lemma processLoop_filter_empty_links (llm : Option LLMFn) (limit : Option Int) (d : Bool) :
    ∀ (entries : List FeedEntry) (r : RunResult),
      processLoop llm limit d (entries.filter (fun e => !(e.link == ""))) r
        = processLoop llm limit d entries r := by
  intro entries
  induction entries with
  | nil => intro r; rfl
  | cons e rest ih =>
    intro r
    by_cases hbr : limitReached limit r.count = true
    · rw [processLoop_of_limitReached llm limit d _ r hbr,
        processLoop_of_limitReached llm limit d _ r hbr]
    · have hbr' : limitReached limit r.count = false := by
        simpa using hbr
      by_cases hl : e.link = ""
      · rw [List.filter_cons_of_neg (by simp [hl]), ih r]
        conv_rhs => rw [processLoop]
        simp [hbr', hl]
      · rw [List.filter_cons_of_pos (by simp [hl])]
        simp only [processLoop]
        by_cases hex : article_exists r.store e.link = true
        · simp [hbr', hl, hex]
          exact ih _
        · have hex' : article_exists r.store e.link = false := by
            simpa using hex
          cases llm with
          | none =>
            simp [hbr', hl, hex']
            cases d with
            | false =>
              simp
              exact ih _
            | true =>
              simp
              exact ih _
          | some f =>
            simp [hbr', hl, hex']
            cases d with
            | false =>
              simp
              exact ih _
            | true =>
              simp
              exact ih _

lemma processLoop_store_mem (llm : Option LLMFn) (limit : Option Int) (d : Bool) :
    ∀ (entries : List FeedEntry) (r : RunResult) (a : Article),
      a ∈ (processLoop llm limit d entries r).store → a ∈ r.store ∨ a.link ≠ "" := by
  intro entries
  induction entries with
  | nil => intro r a ha; exact Or.inl ha
  | cons e rest ih =>
    intro r a ha
    rw [processLoop] at ha
    by_cases hbr : limitReached limit r.count = true
    · rw [if_pos hbr] at ha
      exact Or.inl ha
    · rw [if_neg hbr] at ha
      by_cases hl : e.link = ""
      · rw [if_pos hl] at ha
        exact ih r a ha
      · rw [if_neg hl] at ha
        by_cases hex : article_exists r.store e.link = true
        · simp only [hex, if_true] at ha
          have h2 := ih _ a ha
          exact h2
        · have hex' : article_exists r.store e.link = false := by
            simpa using hex
          cases llm with
          | none =>
            simp only [hex', Bool.false_eq_true, if_false] at ha
            cases d with
            | false =>
              simp at ha
              rcases ih _ a ha with h | h
              · simp only [insert_article, hex', Bool.false_eq_true, if_false] at h
                rcases List.mem_append.mp h with h' | h'
                · exact Or.inl h'
                · rcases List.mem_singleton.mp h' with rfl
                  exact Or.inr hl
              · exact Or.inr h
            | true =>
              simp at ha
              have h2 := ih _ a ha
              exact h2
          | some f =>
            simp only [hex', Bool.false_eq_true, if_false] at ha
            cases d with
            | false =>
              simp at ha
              rcases ih _ a ha with h | h
              · simp only [insert_article, hex', Bool.false_eq_true, if_false] at h
                rcases List.mem_append.mp h with h' | h'
                · exact Or.inl h'
                · rcases List.mem_singleton.mp h' with rfl
                  exact Or.inr hl
              · exact Or.inr h
            | true =>
              simp at ha
              have h2 := ih _ a ha
              exact h2

/-- C7: entries with an empty link are never stored and never counted —
running `process_feed` on a feed snapshot is identical (count, store, clock
and instrumentation counters alike) to running it on the snapshot with all
empty-link entries removed, and every row of the resulting store was either
already present or has a non-empty link. -/
theorem C7_empty_link_skipped (llm : Option LLMFn) (limit : Option Int) (d : Bool)
    (entries : List FeedEntry) (s : Store) (clock : Nat) :
    process_feed llm limit d entries s clock
        = process_feed llm limit d (entries.filter (fun e => !(e.link == ""))) s clock
    ∧ ∀ a ∈ (process_feed llm limit d entries s clock).store, a ∈ s ∨ a.link ≠ "" := by
  constructor
  · exact (processLoop_filter_empty_links llm limit d entries ⟨0, s, clock, 0, 0⟩).symm
  · intro a ha
    exact processLoop_store_mem llm limit d entries ⟨0, s, clock, 0, 0⟩ a ha

/-- Witness for C7: a feed with one empty-link entry and one linked entry
behaves exactly like the feed with only the linked entry. -/
theorem C7_empty_link_skipped_witness :
    process_feed none none false
        [⟨("T"), "", none, none, none, [], none⟩, ⟨("U"), ("L"), none, none, none, [], none⟩] [] 0
      = process_feed none none false
        ([⟨("T"), "", none, none, none, [], none⟩,
          ⟨("U"), ("L"), none, none, none, [], none⟩].filter (fun e => !(e.link == ""))) [] 0 :=
  (C7_empty_link_skipped none none false
    [⟨("T"), "", none, none, none, [], none⟩, ⟨("U"), ("L"), none, none, none, [], none⟩] [] 0).1

lemma linkCount_insert_other (s : Store) (t l0 : String)
    (p src os ts : Option String) (c : Nat) (l : String) (hne : ¬ l0 = l) :
    linkCount (insert_article s t l0 p src os ts c) l = linkCount s l := by
  by_cases hex : article_exists s l0 = true
  · rw [insert_article_of_exists s t l0 p src os ts c hex]
  · rw [insert_article_of_not_exists s t l0 p src os ts c (by simpa using hex),
      linkCount_append]
    simp [linkCount, hne]

lemma processLoop_linkCount_of_pos (llm : Option LLMFn) (limit : Option Int) (d : Bool) :
    ∀ (entries : List FeedEntry) (r : RunResult) (l : String),
      0 < linkCount r.store l →
      linkCount (processLoop llm limit d entries r).store l = linkCount r.store l := by
  intro entries
  induction entries with
  | nil => intro r l _; rfl
  | cons e rest ih =>
    intro r l hpos
    rw [processLoop]
    by_cases hbr : limitReached limit r.count = true
    · rw [if_pos hbr]
    · rw [if_neg hbr]
      by_cases hl : e.link = ""
      · rw [if_pos hl]
        exact ih r l hpos
      · rw [if_neg hl]
        by_cases hex : article_exists r.store e.link = true
        · simp only [hex, if_true]
          refine (ih _ l ?_).trans rfl
          exact hpos
        · have hex' : article_exists r.store e.link = false := by
            simpa using hex
          have hne : ¬ (e.link = l) := by
            intro hcontra
            have h0 : linkCount r.store e.link = 0 := (linkCount_eq_zero_iff _ _).mpr hex'
            rw [hcontra] at h0
            omega
          cases llm with
          | none =>
            simp only [hex', Bool.false_eq_true, if_false]
            cases d with
            | true =>
              simp
              refine (ih _ l ?_).trans rfl
              exact hpos
            | false =>
              simp
              refine (ih _ l ?_).trans ?_
              · rw [linkCount_insert_other _ _ _ _ _ _ _ _ _ hne]
                exact hpos
              · exact linkCount_insert_other _ _ _ _ _ _ _ _ _ hne
          | some f =>
            simp only [hex', Bool.false_eq_true, if_false]
            cases d with
            | true =>
              simp
              refine (ih _ l ?_).trans rfl
              exact hpos
            | false =>
              simp
              refine (ih _ l ?_).trans ?_
              · rw [linkCount_insert_other _ _ _ _ _ _ _ _ _ hne]
                exact hpos
              · exact linkCount_insert_other _ _ _ _ _ _ _ _ _ hne

lemma processLoop_linkCount_new (llm : Option LLMFn) :
    ∀ (entries : List FeedEntry) (r : RunResult) (e : FeedEntry),
      e ∈ entries → ¬ e.link = "" → linkCount r.store e.link = 0 →
      linkCount (processLoop llm none false entries r).store e.link = 1 := by
  intro entries
  induction entries with
  | nil => intro r e he; exact absurd he (List.not_mem_nil e)
  | cons f rest ih =>
    intro r e he hl h0
    rw [processLoop]
    have hbr : ¬ (limitReached none r.count = true) := by
      simp [limitReached]
    rw [if_neg hbr]
    by_cases hfl : f.link = ""
    · rw [if_pos hfl]
      have hef : e ∈ rest := by
        rcases List.mem_cons.mp he with rfl | h
        · exact absurd hfl hl
        · exact h
      exact ih r e hef hl h0
    · rw [if_neg hfl]
      by_cases hex : article_exists r.store f.link = true
      · simp only [hex, if_true]
        have hef : e ∈ rest := by
          rcases List.mem_cons.mp he with rfl | h
          · exfalso
            have hpos := (linkCount_pos_iff r.store e.link).mpr hex
            omega
          · exact h
        exact ih _ e hef hl h0
      · have hex' : article_exists r.store f.link = false := by
          simpa using hex
        cases llm with
        | none =>
          simp only [hex', Bool.false_eq_true, if_false]
          simp
          by_cases hfe : f.link = e.link
          · refine (processLoop_linkCount_of_pos none none false rest _ e.link ?_).trans ?_
            · rw [insert_article_of_not_exists _ _ _ _ _ _ _ _ hex', linkCount_append, h0]
              simp [linkCount, hfe]
            · rw [insert_article_of_not_exists _ _ _ _ _ _ _ _ hex', linkCount_append, h0]
              simp [linkCount, hfe]
          · have hef : e ∈ rest := by
              rcases List.mem_cons.mp he with rfl | h
              · exact absurd rfl hfe
              · exact h
            refine ih _ e hef hl ?_
            rw [linkCount_insert_other _ _ _ _ _ _ _ _ _ hfe]
            exact h0
        | some fn =>
          simp only [hex', Bool.false_eq_true, if_false]
          simp
          by_cases hfe : f.link = e.link
          · refine (processLoop_linkCount_of_pos (some fn) none false rest _ e.link ?_).trans ?_
            · rw [insert_article_of_not_exists _ _ _ _ _ _ _ _ hex', linkCount_append, h0]
              simp [linkCount, hfe]
            · rw [insert_article_of_not_exists _ _ _ _ _ _ _ _ hex', linkCount_append, h0]
              simp [linkCount, hfe]
          · have hef : e ∈ rest := by
              rcases List.mem_cons.mp he with rfl | h
              · exact absurd rfl hfe
              · exact h
            refine ih _ e hef hl ?_
            rw [linkCount_insert_other _ _ _ _ _ _ _ _ _ hfe]
            exact h0

/-- C4: for an entry of the feed snapshot with a non-empty, not-yet-stored
link, one normal, unlimited `process_feed` run stores exactly one row with
that link, and re-running against the same snapshot (with any clock and any
enrichment client) leaves exactly one row with that link: ingestion is
idempotent under the dedup check. -/
theorem C4_ingest_idempotent (llm llm₂ : Option LLMFn) (entries : List FeedEntry)
    (s : Store) (clk clk₂ : Nat) (e : FeedEntry)
    (he : e ∈ entries) (hl : ¬ e.link = "") (h0 : linkCount s e.link = 0) :
    linkCount (process_feed llm none false entries s clk).store e.link = 1
    ∧ linkCount (process_feed llm₂ none false entries
        ((process_feed llm none false entries s clk).store) clk₂).store e.link = 1 := by
  have h1 : linkCount (process_feed llm none false entries s clk).store e.link = 1 :=
    processLoop_linkCount_new llm entries ⟨0, s, clk, 0, 0⟩ e he hl h0
  refine ⟨h1, ?_⟩
  have h2 := processLoop_linkCount_of_pos llm₂ none false entries
    ⟨0, (process_feed llm none false entries s clk).store, clk₂, 0, 0⟩ e.link
    (Nat.lt_of_lt_of_le Nat.zero_lt_one h1.ge)
  exact h2.trans h1

/-- Witness for C4 at a one-entry feed over the empty store. -/
theorem C4_ingest_idempotent_witness :
    linkCount (process_feed none none false [⟨("T"), ("L"), none, none, none, [], none⟩]
        [] 0).store ("L") = 1
    ∧ linkCount (process_feed none none false [⟨("T"), ("L"), none, none, none, [], none⟩]
        ((process_feed none none false [⟨("T"), ("L"), none, none, none, [], none⟩]
          [] 0).store) 1).store ("L") = 1 :=
  C4_ingest_idempotent none none [⟨("T"), ("L"), none, none, none, [], none⟩] [] 0 1
    ⟨("T"), ("L"), none, none, none, [], none⟩ (by decide) (by decide) (by decide)

